import Mathlib

/-!
A shallow embedding of the NEC infrared remote-control driver
(Go packages `irremote` and `irprotocol`) as Lean functions over `Nat`.

Machine integers (`byte`, `uint16`, `uint32`) are modelled as `Nat`;
the Go code only truncates through explicit masks, which are embedded
verbatim with `&&&` / `>>>` / `<<<` / `|||` / `^^^`.  Durations
(`time.Duration`, int64 nanoseconds) are modelled as `Nat` nanoseconds:
all durations occurring in the driver are nonnegative.

The sender's mark/space side effects are modelled as an explicit trace
of emissions: each send operation returns the list of emissions it
performs together with the duration it returns in Go.

The auto-repeat goroutine and its cancellation protocol are modelled as
an explicit interleaving transition system over a small shared state.
-/

set_option maxRecDepth 4096

namespace IRRemote

/-- Go bitwise complement `^b` on a `byte` operand: complement within
8 bits, i.e. xor with `0xff` (all byte values handled here are < 256). -/
def bnot (b : Nat) : Nat := b ^^^ 0xff

/-- Embeds Go `MakeNECAddress(addrLow, addrHigh byte) uint16`:
if the high byte is the inverse of the low byte the pair is the 8-bit
address form, so the 8-bit address is returned; otherwise the 16-bit
extended address. -/
def MakeNECAddress (addrLow addrHigh : Nat) : Nat :=
  if addrHigh = bnot addrLow then
    addrLow
  else
    (addrHigh <<< 8) ||| addrLow

/-- Embeds Go `SplitNECAddress(address uint16) (addrLow, addrHigh byte)`:
split an NEC address into low and high bytes, substituting the inverse
of the low byte for a zero high byte (8-bit address marker convention). -/
def SplitNECAddress (address : Nat) : Nat × Nat :=
  let addrLow := address &&& 0xff
  let addrHigh := (address &&& 0xff00) >>> 8
  if addrHigh = 0 then (addrLow, bnot addrLow) else (addrLow, addrHigh)

/-- Embeds Go `MakeRawNECData(address uint16, command byte) uint32`:
pack `{addrLow, addrHigh, command, ^command}` LSB-first into 32 bits. -/
def MakeRawNECData (address command : Nat) : Nat :=
  let p := SplitNECAddress address
  ((bnot command) <<< 24) ||| (command <<< 16) ||| (p.2 <<< 8) ||| p.1

/-- Result triple of `SplitRawNECData` (Go multiple return values). -/
structure NECSplit where
  valid : Bool
  address : Nat
  command : Nat
deriving DecidableEq

/-- Embeds Go `SplitRawNECData(data uint32) (valid bool, address uint16,
command byte)`: extract the four bytes, resolve the address, and check
that the command byte is the inverse of the inverted-command byte. -/
def SplitRawNECData (data : Nat) : NECSplit :=
  let addrLow := data &&& 0xff
  let addrHigh := (data &&& 0xff00) >>> 8
  let command := (data &&& 0xff0000) >>> 16
  let invCmd := (data &&& 0xff000000) >>> 24
  { valid := decide (command = bnot invCmd)
    address := MakeNECAddress addrLow addrHigh
    command := command }

/-- NEC modulation carrier frequency (Hz). -/
def NEC_modulation_frequency : Nat := 38000

/-- The NEC protocol base time unit, in nanoseconds (562.5 us). -/
def nec_unit : Nat := 562500

/-- Lead mark duration (9 ms). -/
def nec_lead_mark : Nat := nec_unit * 16

/-- Lead space duration (4.5 ms). -/
def nec_lead_space : Nat := nec_unit * 8

/-- Repeat-frame space duration (2.25 ms). -/
def nec_repeat_space : Nat := nec_unit * 4

/-- Bit mark duration. -/
def nec_bit_mark : Nat := nec_unit

/-- Space duration encoding a 0 bit. -/
def nec_bit_0_space : Nat := nec_unit

/-- Space duration encoding a 1 bit (1.6875 ms). -/
def nec_bit_1_space : Nat := nec_unit * 3

/-- Trail mark duration. -/
def nec_trail_mark : Nat := nec_unit

/-- Repeat period (108 ms). -/
def nec_repeat_period : Nat := nec_unit * 192

/-- One observable output action of the sender: a carrier-on pulse
(`mark`) or a carrier-off pause (`space`), with its duration. -/
inductive Emission
  | mark (duration : Nat)
  | space (duration : Nat)
deriving DecidableEq

/-- The inner bit loop of Go `SendNECRawBytes` for one data byte `b`:
for bits 0..7 (LSB first) emit a bit mark then the space encoding the
bit value.  Returns the emissions and the total space duration added to
`txDuration` by this byte (the bit marks are accounted for up front in
`SendNECRawBytes`, exactly as in the Go code). -/
def sendDataByte (b : Nat) : List Emission × Nat :=
  (List.range 8).foldl
    (fun acc i =>
      let mask := 1 <<< i
      if b &&& mask = 0 then
        (acc.1 ++ [Emission.mark nec_bit_mark, Emission.space nec_bit_0_space],
         acc.2 + nec_bit_0_space)
      else
        (acc.1 ++ [Emission.mark nec_bit_mark, Emission.space nec_bit_1_space],
         acc.2 + nec_bit_1_space))
    ([], 0)

/-- Embeds Go `SendNECRawBytes(addrLow, addrHigh, cmd, invCmd byte)
time.Duration`: lead mark and space, the 32 data bits of the four bytes
LSB-first, and a trail mark.  Returns the emission trace and the
returned transmission duration (initialised to all the fixed mark
durations, then accumulating the per-bit space durations). -/
def SendNECRawBytes (addrLow addrHigh cmd invCmd : Nat) : List Emission × Nat :=
  let bytesToSend := [addrLow, addrHigh, cmd, invCmd]
  let txDuration := nec_lead_mark + nec_lead_space + 32 * nec_bit_mark + nec_trail_mark
  let afterData :=
    bytesToSend.foldl
      (fun acc b =>
        let r := sendDataByte b
        (acc.1 ++ r.1, acc.2 + r.2))
      ([Emission.mark nec_lead_mark, Emission.space nec_lead_space], txDuration)
  (afterData.1 ++ [Emission.mark nec_trail_mark], afterData.2)

/-- Embeds Go `SendNECRepeat() time.Duration`: the abbreviated repeat
frame (lead mark, repeat space, trail mark). -/
def SendNECRepeat : List Emission × Nat :=
  ([Emission.mark nec_lead_mark, Emission.space nec_repeat_space,
    Emission.mark nec_trail_mark],
   nec_lead_mark + nec_repeat_space + nec_trail_mark)

/-- Embeds Go `SendNECRawCode(data uint32) time.Duration`: validate and
decode the raw code; on validation failure return zero duration with no
emissions, otherwise delegate to `SendNECRawBytes`. -/
def SendNECRawCode (data : Nat) : List Emission × Nat :=
  let s := SplitRawNECData data
  if !s.valid then ([], 0)
  else
    let p := SplitNECAddress s.address
    SendNECRawBytes p.1 p.2 s.command (bnot s.command)

/-- Embeds Go `SenderConfig`.  The GPIO pin is an opaque handle; the PWM
collaborator is external and carries no state relevant to this core.
`ModulationDutyCycle` is a Go `int`, modelled as `Int`. -/
structure SenderConfig where
  Pin : Nat
  ModulationDutyCycle : Int

/-- Embeds the configured fields of Go `SenderDevice`. -/
structure SenderDevice where
  pin : Nat
  pwmDC : Int

/-- Embeds Go `NewSender(config SenderConfig) SenderDevice`: a duty
cycle outside [1, 100] is replaced by the default 33. -/
def NewSender (config : SenderConfig) : SenderDevice :=
  let dc :=
    if config.ModulationDutyCycle < 1 ∨ 100 < config.ModulationDutyCycle then 33
    else config.ModulationDutyCycle
  { pin := config.Pin, pwmDC := dc }

/-- State of the shared `chRpt` channel field: an open channel, a closed
channel, or the nil reference (the field set to `nil`). -/
inductive ChanSt
  | opened
  | closed
  | nilref
deriving DecidableEq

/-- Control point of the background auto-repeat goroutine of `SendNEC`:
initial sleep, loop-condition check, `select` body, the post-frame
sleep, or exited. -/
inductive BgPc
  | start
  | loopHead
  | sel
  | sleeping
  | exited
deriving DecidableEq

/-- Control point of a foreground caller in `waitForAutoRepeatCancel`
(reached from `StopNECRepeats` or from the start of `SendNECRawBytes`):
loop-condition check, `select` body, returned, or panicked (Go `close`
of a nil channel panics). -/
inductive FgPc
  | loopHead
  | sel
  | done
  | panicked
deriving DecidableEq

/-- Shared state of the cancellation protocol: the `chRpt` field, both
control points, and the number of repeat frames emitted so far. -/
structure RptState where
  ch : ChanSt
  bg : BgPc
  fg : FgPc
  frames : Nat
deriving DecidableEq

/-- Successor states contributed by one step of the foreground
`waitForAutoRepeatCancel` loop.  At `loopHead` the loop condition
`ir.chRpt != nil` is read; at `sel` the `select` reads the channel: a
closed channel satisfies the receive case (sleep, then loop again), an
open channel falls to `default` which closes it, and a nil channel falls
to `default` where `close(nil)` panics. -/
def fgNext (s : RptState) : List RptState :=
  match s.fg with
  | FgPc.loopHead =>
      if s.ch = ChanSt.nilref then [{ s with fg := FgPc.done }]
      else [{ s with fg := FgPc.sel }]
  | FgPc.sel =>
      match s.ch with
      | ChanSt.closed => [{ s with fg := FgPc.loopHead }]
      | ChanSt.opened => [{ s with ch := ChanSt.closed, fg := FgPc.loopHead }]
      | ChanSt.nilref => [{ s with fg := FgPc.panicked }]
  | FgPc.done => []
  | FgPc.panicked => []

/-- Successor states contributed by one step of the background repeat
goroutine.  After the initial sleep it loops: read `irs.chRpt != nil`;
in the `select`, a closed channel satisfies the receive case whose body
sets `irs.chRpt = nil`, while an open (or nil) channel falls to
`default`, which emits one repeat frame and sleeps. -/
def bgNext (s : RptState) : List RptState :=
  match s.bg with
  | BgPc.start => [{ s with bg := BgPc.loopHead }]
  | BgPc.loopHead =>
      if s.ch = ChanSt.nilref then [{ s with bg := BgPc.exited }]
      else [{ s with bg := BgPc.sel }]
  | BgPc.sel =>
      match s.ch with
      | ChanSt.closed => [{ s with ch := ChanSt.nilref, bg := BgPc.loopHead }]
      | ChanSt.opened => [{ s with bg := BgPc.sleeping, frames := s.frames + 1 }]
      | ChanSt.nilref => [{ s with bg := BgPc.sleeping, frames := s.frames + 1 }]
  | BgPc.sleeping => [{ s with bg := BgPc.loopHead }]
  | BgPc.exited => []

/-- All successor states under free interleaving of the two tasks.  An
unrecovered Go panic terminates the whole program, so a panicked state
has no successors. -/
def rptNext (s : RptState) : List RptState :=
  if s.fg = FgPc.panicked then [] else fgNext s ++ bgNext s

/-- One interleaving step of the cancellation protocol. -/
def RptStep (s t : RptState) : Prop := t ∈ rptNext s

/-- Initial state: `SendNEC` has installed an open channel and spawned
the background goroutine (still in its initial sleep), and a foreground
caller has just entered `waitForAutoRepeatCancel`. -/
def rptInit : RptState :=
  { ch := ChanSt.opened, bg := BgPc.start, fg := FgPc.loopHead, frames := 0 }

/-- Reachability from the initial state of the cancellation protocol. -/
def RptReachable (s : RptState) : Prop :=
  Relation.ReflTransGen RptStep rptInit s

/-- Safety invariant of the cancellation protocol: a returned foreground
caller implies a nil channel, and a nil channel implies the background
goroutine has already performed its cleanup (it is at the loop check or
has exited). -/
def RptInv (s : RptState) : Prop :=
  (s.fg = FgPc.done → s.ch = ChanSt.nilref) ∧
  (s.ch = ChanSt.nilref → s.bg = BgPc.loopHead ∨ s.bg = BgPc.exited)

/-- Number of 1-bits among bits 0..7 of `b`, the bits transmitted for a
data byte (a byte value is below 256, so these are all its bits). -/
def bitsOn (b : Nat) : Nat :=
  (List.range 8).countP (fun i => decide (b &&& (1 <<< i) ≠ 0))

/-! ## Bitwise-to-arithmetic bridging lemmas -/

theorem or_shiftLeft_eq_add (x y n : Nat) (hy : y < 2 ^ n) :
    (x <<< n) ||| y = x * 2 ^ n + y := by
  have h := Nat.mul_add_lt_is_or hy x
  rw [Nat.shiftLeft_eq, Nat.mul_comm x (2 ^ n)]
  exact h.symm

theorem mask_shift (x m n : Nat) : (x &&& (m <<< n)) >>> n = (x >>> n) &&& m := by
  apply Nat.eq_of_testBit_eq
  intro i
  simp [Nat.testBit_shiftRight, Nat.testBit_and, Nat.testBit_shiftLeft,
    Nat.le_add_right, Nat.add_sub_cancel_left]

theorem xor_shiftRight (a b n : Nat) : (a ^^^ b) >>> n = (a >>> n) ^^^ (b >>> n) := by
  apply Nat.eq_of_testBit_eq
  intro i
  simp [Nat.testBit_shiftRight, Nat.testBit_xor]

theorem pack_eq (a b c d : Nat) (hb : b < 256) (hc : c < 256) (hd : d < 256) :
    (a <<< 24) ||| (b <<< 16) ||| (c <<< 8) ||| d
      = a * 16777216 + b * 65536 + c * 256 + d := by
  rw [Nat.or_assoc, Nat.or_assoc]
  rw [or_shiftLeft_eq_add c d 8 (by omega)]
  rw [or_shiftLeft_eq_add b (c * 2 ^ 8 + d) 16 (by norm_num; omega)]
  rw [or_shiftLeft_eq_add a (b * 2 ^ 16 + (c * 2 ^ 8 + d)) 24 (by norm_num; omega)]
  norm_num
  omega

theorem band_255_eq_mod (x : Nat) : x &&& 0xff = x % 256 := by
  have h := Nat.and_pow_two_sub_one_eq_mod x 8
  norm_num at h
  exact h

theorem extract8 (x : Nat) : (x &&& 0xff00) >>> 8 = x / 256 % 256 := by
  have h : (0xff00 : Nat) = 0xff <<< 8 := by decide
  rw [h, mask_shift, band_255_eq_mod, Nat.shiftRight_eq_div_pow]

theorem extract16 (x : Nat) : (x &&& 0xff0000) >>> 16 = x / 65536 % 256 := by
  have h : (0xff0000 : Nat) = 0xff <<< 16 := by decide
  rw [h, mask_shift, band_255_eq_mod, Nat.shiftRight_eq_div_pow]

theorem extract24 (x : Nat) : (x &&& 0xff000000) >>> 24 = x / 16777216 % 256 := by
  have h : (0xff000000 : Nat) = 0xff <<< 24 := by decide
  rw [h, mask_shift, band_255_eq_mod, Nat.shiftRight_eq_div_pow]

theorem bnot_lt (b : Nat) (hb : b < 256) : bnot b < 256 := by
  revert b
  decide

theorem bnot_bnot (b : Nat) (hb : b < 256) : bnot (bnot b) = b := by
  revert b
  decide

theorem bnot_eq_sub (b : Nat) (hb : b < 256) : bnot b = 255 - b := by
  revert b
  decide

/-! ## Codec characterization lemmas -/

theorem SplitRawNECData_arith (data : Nat) :
    SplitRawNECData data =
      { valid := decide (data / 65536 % 256 = bnot (data / 16777216 % 256)),
        address := MakeNECAddress (data % 256) (data / 256 % 256),
        command := data / 65536 % 256 } := by
  simp only [SplitRawNECData, band_255_eq_mod, extract8, extract16, extract24]

theorem SplitNECAddress_arith (address : Nat) (h : address < 65536) :
    SplitNECAddress address =
      if address / 256 = 0 then (address % 256, bnot (address % 256))
      else (address % 256, address / 256) := by
  have hd : address / 256 % 256 = address / 256 := Nat.mod_eq_of_lt (by omega)
  simp only [SplitNECAddress, band_255_eq_mod, extract8, hd]

theorem MakeNECAddress_arith (addrLow addrHigh : Nat) (hl : addrLow < 256) :
    MakeNECAddress addrLow addrHigh =
      if addrHigh = bnot addrLow then addrLow else addrHigh * 256 + addrLow := by
  by_cases h : addrHigh = bnot addrLow
  · simp [MakeNECAddress, h]
  · simp only [MakeNECAddress, if_neg h]
    rw [or_shiftLeft_eq_add addrHigh addrLow 8 (by norm_num; omega)]
    norm_num

theorem SplitNECAddress_bounds (address : Nat) (h : address < 65536) :
    (SplitNECAddress address).1 < 256 ∧ (SplitNECAddress address).2 < 256 := by
  rw [SplitNECAddress_arith address h]
  by_cases h0 : address / 256 = 0
  · simp only [if_pos h0]
    exact ⟨Nat.mod_lt _ (by norm_num), bnot_lt _ (Nat.mod_lt _ (by norm_num))⟩
  · simp only [if_neg h0]
    exact ⟨Nat.mod_lt _ (by norm_num), by omega⟩

theorem MakeRawNECData_arith (address command : Nat) (ha : address < 65536)
    (hc : command < 256) :
    MakeRawNECData address command =
      bnot command * 16777216 + command * 65536
        + (SplitNECAddress address).2 * 256 + (SplitNECAddress address).1 := by
  obtain ⟨h1, h2⟩ := SplitNECAddress_bounds address ha
  simp only [MakeRawNECData]
  exact pack_eq _ _ _ _ hc h2 h1

theorem unpack (a b c d : Nat) (ha : a < 256) (hb : b < 256) (hc : c < 256)
    (hd : d < 256) :
    (a * 16777216 + b * 65536 + c * 256 + d) % 256 = d ∧
    (a * 16777216 + b * 65536 + c * 256 + d) / 256 % 256 = c ∧
    (a * 16777216 + b * 65536 + c * 256 + d) / 65536 % 256 = b ∧
    (a * 16777216 + b * 65536 + c * 256 + d) / 16777216 % 256 = a := by
  omega

theorem roundtrip_core (address command : Nat) (ha : address < 65536)
    (hc : command < 256) :
    SplitRawNECData (MakeRawNECData address command) =
      { valid := true,
        address := MakeNECAddress (SplitNECAddress address).1 (SplitNECAddress address).2,
        command := command } := by
  obtain ⟨h1, h2⟩ := SplitNECAddress_bounds address ha
  have hb := bnot_lt command hc
  rw [MakeRawNECData_arith address command ha hc, SplitRawNECData_arith]
  obtain ⟨u1, u2, u3, u4⟩ :=
    unpack (bnot command) command (SplitNECAddress address).2
      (SplitNECAddress address).1 hb hc h2 h1
  rw [u1, u2, u3, u4, bnot_bnot command hc]
  simp

theorem resolve_small (a : Nat) (h : a < 256) :
    MakeNECAddress (SplitNECAddress a).1 (SplitNECAddress a).2 = a := by
  rw [SplitNECAddress_arith a (by omega), if_pos (by omega : a / 256 = 0)]
  have hm : a % 256 = a := Nat.mod_eq_of_lt h
  simp only [hm]
  rw [MakeNECAddress_arith a (bnot a) h, if_pos rfl]

theorem resolve_ext (a : Nat) (ha : 256 ≤ a) (ha2 : a < 65536)
    (h : a / 256 ≠ bnot (a % 256)) :
    MakeNECAddress (SplitNECAddress a).1 (SplitNECAddress a).2 = a := by
  rw [SplitNECAddress_arith a ha2, if_neg (by omega : ¬ a / 256 = 0)]
  simp only
  rw [MakeNECAddress_arith (a % 256) (a / 256) (Nat.mod_lt _ (by norm_num)), if_neg h]
  omega

theorem resolve_col (a : Nat) (ha : 256 ≤ a) (ha2 : a < 65536)
    (h : a / 256 = bnot (a % 256)) :
    MakeNECAddress (SplitNECAddress a).1 (SplitNECAddress a).2 = a % 256 := by
  rw [SplitNECAddress_arith a ha2, if_neg (by omega : ¬ a / 256 = 0)]
  simp only
  rw [MakeNECAddress_arith (a % 256) (a / 256) (Nat.mod_lt _ (by norm_num)), if_pos h]

/-! ## Claim theorems -/

/-- C1: round-trip identity of the raw NEC codec.  For every command
below 256 and every address below 65536 that is either in the 8-bit
range or whose high byte is not the bitwise complement of its low byte,
decoding the encoded raw code returns `(valid = true, address, command)`
exactly. -/
theorem nec_roundtrip_exact (address command : Nat) (ha : address < 65536)
    (hc : command < 256)
    (h : address < 256 ∨ (address >>> 8) ≠ bnot (address &&& 0xff)) :
    SplitRawNECData (MakeRawNECData address command) =
      { valid := true, address := address, command := command } := by
  rw [roundtrip_core address command ha hc]
  simp only [NECSplit.mk.injEq]
  refine ⟨by trivial, ?_, by trivial⟩
  by_cases hsmall : address < 256
  · exact resolve_small address hsmall
  · have hne : address / 256 ≠ bnot (address % 256) := by
      rcases h with h | h
      · exact absurd h hsmall
      · rwa [Nat.shiftRight_eq_div_pow, band_255_eq_mod, show (2 : Nat) ^ 8 = 256 by norm_num] at h
    exact resolve_ext address (by omega) ha hne

/-- C1 witness: the round trip at the extended address 0x0100 with
command 0x20. -/
theorem nec_roundtrip_exact_witness :
    SplitRawNECData (MakeRawNECData 0x0100 0x20) =
      { valid := true, address := 0x0100, command := 0x20 } :=
  nec_roundtrip_exact 0x0100 0x20 (by norm_num) (by norm_num) (Or.inr (by decide))

/-- C2: canonical collapse of colliding extended addresses.  For every
address in 0x100..0xFFFF whose high byte equals the bitwise complement
of its low byte, and every command below 256, the round trip returns
`(valid = true, address &&& 0xff, command)`: it deterministically
collapses the address to its low byte rather than failing. -/
theorem nec_roundtrip_collapse (address command : Nat) (ha : 256 ≤ address)
    (ha2 : address < 65536) (hc : command < 256)
    (h : (address >>> 8) = bnot (address &&& 0xff)) :
    SplitRawNECData (MakeRawNECData address command) =
      { valid := true, address := address &&& 0xff, command := command } := by
  rw [roundtrip_core address command ha2 hc]
  simp only [NECSplit.mk.injEq]
  refine ⟨by trivial, ?_, by trivial⟩
  rw [Nat.shiftRight_eq_div_pow, band_255_eq_mod,
    show (2 : Nat) ^ 8 = 256 by norm_num] at h
  rw [band_255_eq_mod]
  exact resolve_col address ha ha2 h

/-- C2 witness: address 0xFF00 (high byte 0xFF is the complement of low
byte 0x00) collapses to address 0x00. -/
theorem nec_roundtrip_collapse_witness :
    SplitRawNECData (MakeRawNECData 0xFF00 0x01) =
      { valid := true, address := 0xFF00 &&& 0xff, command := 0x01 } :=
  nec_roundtrip_collapse 0xFF00 0x01 (by norm_num) (by norm_num) (by norm_num)
    (by decide)

/-- C7: encoding layout.  `MakeRawNECData` decomposes the address into
low byte and high byte (the high byte replaced by the complement of the
low byte exactly when it is zero) and packs the word as
`low + high * 2^8 + command * 2^16 + bnot command * 2^24`; and the five
concrete vectors of the specification hold. -/
theorem makeRaw_layout (address command : Nat) (ha : address < 65536)
    (hc : command < 256) :
    ((SplitNECAddress address).1 = address % 256 ∧
     (SplitNECAddress address).2 =
       (if address / 256 = 0 then bnot (address % 256) else address / 256) ∧
     MakeRawNECData address command =
       (SplitNECAddress address).1 + (SplitNECAddress address).2 * 256
         + command * 65536 + bnot command * 16777216) ∧
    MakeRawNECData 0x0000 0x00 = 0xFF00FF00 ∧
    MakeRawNECData 0x0000 0xFF = 0x00FFFF00 ∧
    MakeRawNECData 0x00FF 0x00 = 0xFF0000FF ∧
    MakeRawNECData 0x0100 0x00 = 0xFF000100 ∧
    MakeRawNECData 0xFE00 0x00 = 0xFF00FE00 := by
  refine ⟨⟨?_, ?_, ?_⟩, by decide, by decide, by decide, by decide, by decide⟩
  · rw [SplitNECAddress_arith address ha]
    by_cases h0 : address / 256 = 0 <;> simp [h0]
  · rw [SplitNECAddress_arith address ha]
    by_cases h0 : address / 256 = 0 <;> simp [h0]
  · rw [MakeRawNECData_arith address command ha hc]
    omega

/-- C7 witness: the layout at address 0x1234, command 0x56. -/
theorem makeRaw_layout_witness :
    (SplitNECAddress 0x1234).1 = 0x1234 % 256 ∧
    (SplitNECAddress 0x1234).2 =
      (if 0x1234 / 256 = 0 then bnot (0x1234 % 256) else 0x1234 / 256) ∧
    MakeRawNECData 0x1234 0x56 =
      (SplitNECAddress 0x1234).1 + (SplitNECAddress 0x1234).2 * 256
        + 0x56 * 65536 + bnot 0x56 * 16777216 :=
  (makeRaw_layout 0x1234 0x56 (by norm_num) (by norm_num)).1

/-- C10: idempotence of address canonicalization.  Writing `f` for the
decompose-then-resolve round trip
`MakeNECAddress (SplitNECAddress a).1 (SplitNECAddress a).2`, every
16-bit address satisfies `f (f a) = f a`. -/
theorem resolve_idempotent (address : Nat) (ha : address < 65536) :
    MakeNECAddress
        (SplitNECAddress (MakeNECAddress (SplitNECAddress address).1
          (SplitNECAddress address).2)).1
        (SplitNECAddress (MakeNECAddress (SplitNECAddress address).1
          (SplitNECAddress address).2)).2 =
      MakeNECAddress (SplitNECAddress address).1 (SplitNECAddress address).2 := by
  by_cases hsmall : address < 256
  · rw [resolve_small address hsmall, resolve_small address hsmall]
  · by_cases hcol : address / 256 = bnot (address % 256)
    · rw [resolve_col address (by omega) ha hcol]
      exact resolve_small _ (Nat.mod_lt _ (by norm_num))
    · rw [resolve_ext address (by omega) ha hcol, resolve_ext address (by omega) ha hcol]

/-- From `x ^^^ y = x` conclude `y = 0`. -/
theorem xor_cancel_left_zero {x y : Nat} (h : x ^^^ y = x) : y = 0 := by
  calc y = (x ^^^ x) ^^^ y := by rw [Nat.xor_self, Nat.zero_xor]
    _ = x ^^^ (x ^^^ y) := by rw [Nat.xor_assoc]
    _ = x ^^^ x := by rw [h]
    _ = 0 := Nat.xor_self x

theorem bits_to_divmod (x n : Nat) : (x >>> n) &&& 0xff = x / 2 ^ n % 256 := by
  rw [band_255_eq_mod, Nat.shiftRight_eq_div_pow]

/-- Flipping bit `i` of `x`, with `i` inside the byte at offset `n`,
flips the corresponding bit of that byte. -/
theorem byte_xor_pow_mid (x n i : Nat) (h1 : n ≤ i) (h2 : i < n + 8) :
    (x ^^^ 2 ^ i) / 2 ^ n % 256 = (x / 2 ^ n % 256) ^^^ 2 ^ (i - n) := by
  rw [← bits_to_divmod, ← bits_to_divmod, xor_shiftRight]
  have hp : (2 : Nat) ^ i >>> n = 2 ^ (i - n) := by
    rw [Nat.shiftRight_eq_div_pow]
    exact Nat.pow_div h1 (by norm_num)
  have hsmall : (2 : Nat) ^ (i - n) &&& 0xff = 2 ^ (i - n) := by
    rw [band_255_eq_mod]
    refine Nat.mod_eq_of_lt ?_
    calc (2 : Nat) ^ (i - n) ≤ 2 ^ 7 := Nat.pow_le_pow_right (by norm_num) (by omega)
      _ < 256 := by norm_num
  rw [hp, Nat.and_xor_distrib_right, hsmall]

/-- Flipping bit `i` of `x`, with `i` below the byte at offset `n`,
leaves that byte unchanged. -/
theorem byte_xor_pow_low (x n i : Nat) (h : i < n) :
    (x ^^^ 2 ^ i) / 2 ^ n % 256 = x / 2 ^ n % 256 := by
  rw [← bits_to_divmod, ← bits_to_divmod, xor_shiftRight]
  have hp : (2 : Nat) ^ i >>> n = 0 := by
    rw [Nat.shiftRight_eq_div_pow]
    refine Nat.div_eq_of_lt ?_
    exact Nat.pow_lt_pow_right (by norm_num) h
  rw [hp, Nat.xor_zero]

/-- Flipping bit `i` of `x`, with `i` above the byte at offset `n`,
leaves that byte unchanged. -/
theorem byte_xor_pow_high (x n i : Nat) (h : n + 8 ≤ i) :
    (x ^^^ 2 ^ i) / 2 ^ n % 256 = x / 2 ^ n % 256 := by
  rw [← bits_to_divmod, ← bits_to_divmod, xor_shiftRight]
  have hp : (2 : Nat) ^ i >>> n = 2 ^ (i - n) := by
    rw [Nat.shiftRight_eq_div_pow]
    exact Nat.pow_div (by omega) (by norm_num)
  have hzero : (2 : Nat) ^ (i - n) &&& 0xff = 0 := by
    rw [band_255_eq_mod]
    have hd : (256 : Nat) ∣ 2 ^ (i - n) := by
      have h2 : (2 : Nat) ^ 8 ∣ 2 ^ (i - n) := pow_dvd_pow 2 (by omega)
      norm_num at h2
      exact h2
    omega
  rw [hp, Nat.and_xor_distrib_right, hzero, Nat.xor_zero]

/-- C5: decode validity flag and non-short-circuiting outputs.  For
every 32-bit raw code, `valid` is true exactly when the command byte
(bits 16..23) is the complement of the inverted-command byte (bits
24..31); address and command are computed from the raw bits regardless
of validity; and flipping exactly one bit in either of those two bytes
of a valid code always yields `valid = false`. -/
theorem splitRaw_valid_flip (data : Nat) (_hdata : data < 4294967296) :
    ((SplitRawNECData data).valid = true ↔
        data / 65536 % 256 = 255 - data / 16777216 % 256) ∧
    (SplitRawNECData data).command = data / 65536 % 256 ∧
    (SplitRawNECData data).address =
      MakeNECAddress (data % 256) (data / 256 % 256) ∧
    (∀ i, 16 ≤ i → i < 32 → (SplitRawNECData data).valid = true →
      (SplitRawNECData (data ^^^ 2 ^ i)).valid = false) := by
  have hinv : data / 16777216 % 256 < 256 := Nat.mod_lt _ (by norm_num)
  refine ⟨?_, ?_, ?_, ?_⟩
  · rw [SplitRawNECData_arith, bnot_eq_sub _ hinv]
    simp
  · rw [SplitRawNECData_arith]
  · rw [SplitRawNECData_arith]
  · intro i h16 h32 hv
    rw [SplitRawNECData_arith] at hv
    simp only [decide_eq_true_eq] at hv
    rw [SplitRawNECData_arith]
    simp only [decide_eq_false_iff_not]
    by_cases h24 : i < 24
    · have hc :=
        byte_xor_pow_mid data 16 i h16 (by omega)
      have hi :=
        byte_xor_pow_low data 24 i h24
      rw [show (65536 : Nat) = 2 ^ 16 by norm_num,
        show (16777216 : Nat) = 2 ^ 24 by norm_num] at hv ⊢
      rw [hc, hi]
      intro heq
      rw [← hv] at heq
      have := xor_cancel_left_zero heq
      exact absurd this (Nat.pos_iff_ne_zero.mp (Nat.pos_pow_of_pos _ (by norm_num)))
    · have hc :=
        byte_xor_pow_high data 16 i (by omega)
      have hi :=
        byte_xor_pow_mid data 24 i (by omega) (by omega)
      rw [show (65536 : Nat) = 2 ^ 16 by norm_num,
        show (16777216 : Nat) = 2 ^ 24 by norm_num] at hv ⊢
      rw [hc, hi]
      intro heq
      have hswap : bnot (data / 2 ^ 24 % 256 ^^^ 2 ^ (i - 24)) =
          bnot (data / 2 ^ 24 % 256) ^^^ 2 ^ (i - 24) := by
        simp only [bnot]
        rw [Nat.xor_assoc, Nat.xor_comm (2 ^ (i - 24)) (0xff : Nat), ← Nat.xor_assoc]
      rw [hswap, ← hv] at heq
      have := xor_cancel_left_zero heq.symm
      exact absurd this (Nat.pos_iff_ne_zero.mp (Nat.pos_pow_of_pos _ (by norm_num)))

/-- C5 witness: the characterization at the valid raw code 0xFF00FF00. -/
theorem splitRaw_valid_flip_witness :
    ((SplitRawNECData 0xFF00FF00).valid = true ↔
        0xFF00FF00 / 65536 % 256 = 255 - 0xFF00FF00 / 16777216 % 256) ∧
    (SplitRawNECData 0xFF00FF00).command = 0xFF00FF00 / 65536 % 256 ∧
    (SplitRawNECData 0xFF00FF00).address =
      MakeNECAddress (0xFF00FF00 % 256) (0xFF00FF00 / 256 % 256) ∧
    (∀ i, 16 ≤ i → i < 32 → (SplitRawNECData 0xFF00FF00).valid = true →
      (SplitRawNECData (0xFF00FF00 ^^^ 2 ^ i)).valid = false) :=
  splitRaw_valid_flip 0xFF00FF00 (by norm_num)

/-- C10 witness: idempotence at the colliding extended address 0xFF07,
whose round trip collapses to 0x07. -/
theorem resolve_idempotent_witness :
    MakeNECAddress
        (SplitNECAddress (MakeNECAddress (SplitNECAddress 0xFF07).1
          (SplitNECAddress 0xFF07).2)).1
        (SplitNECAddress (MakeNECAddress (SplitNECAddress 0xFF07).1
          (SplitNECAddress 0xFF07).2)).2 =
      MakeNECAddress (SplitNECAddress 0xFF07).1 (SplitNECAddress 0xFF07).2 :=
  resolve_idempotent 0xFF07 (by norm_num)

/-! ## Transmission duration lemmas -/

theorem sendDataByte_dur : ∀ b, b < 256 →
    (sendDataByte b).2 = bitsOn b * nec_bit_1_space + (8 - bitsOn b) * nec_bit_0_space := by
  decide

theorem bitsOn_le (b : Nat) : bitsOn b ≤ 8 := by
  unfold bitsOn
  calc (List.range 8).countP (fun i => decide (b &&& (1 <<< i) ≠ 0))
      ≤ (List.range 8).length := List.countP_le_length _
    _ = 8 := by simp

theorem sendBytes_snd_unfold (a b c d : Nat) :
    (SendNECRawBytes a b c d).2 =
      (nec_lead_mark + nec_lead_space + 32 * nec_bit_mark + nec_trail_mark)
        + (sendDataByte a).2 + (sendDataByte b).2
        + (sendDataByte c).2 + (sendDataByte d).2 := rfl

theorem sendBytes_duration_formula (a b c d : Nat) (ha : a < 256) (hb : b < 256)
    (hc : c < 256) (hd : d < 256) :
    (SendNECRawBytes a b c d).2 =
      nec_lead_mark + nec_lead_space + 32 * nec_bit_mark + nec_trail_mark
        + (bitsOn a + bitsOn b + bitsOn c + bitsOn d) * nec_bit_1_space
        + (32 - (bitsOn a + bitsOn b + bitsOn c + bitsOn d)) * nec_bit_0_space := by
  have h1 := sendDataByte_dur a ha
  have h2 := sendDataByte_dur b hb
  have h3 := sendDataByte_dur c hc
  have h4 := sendDataByte_dur d hd
  have l1 := bitsOn_le a
  have l2 := bitsOn_le b
  have l3 := bitsOn_le c
  have l4 := bitsOn_le d
  rw [sendBytes_snd_unfold, h1, h2, h3, h4]
  simp only [nec_lead_mark, nec_lead_space, nec_bit_mark, nec_trail_mark,
    nec_bit_1_space, nec_bit_0_space, nec_unit]
  omega

/-- C4: duration formula for full transmissions.  For every 4-byte input,
the duration returned by `SendNECRawBytes` is exactly
`LEAD_MARK + LEAD_SPACE + 32*BIT_MARK + TRAIL_MARK + k*BIT_1_SPACE +
(32-k)*BIT_0_SPACE`, where `k` is the number of 1-bits across the four
bytes — so the value depends only on that popcount. -/
theorem sendBytes_duration (a b c d : Nat) (ha : a < 256) (hb : b < 256)
    (hc : c < 256) (hd : d < 256) :
    (SendNECRawBytes a b c d).2 =
      nec_lead_mark + nec_lead_space + 32 * nec_bit_mark + nec_trail_mark
        + (bitsOn a + bitsOn b + bitsOn c + bitsOn d) * nec_bit_1_space
        + (32 - (bitsOn a + bitsOn b + bitsOn c + bitsOn d)) * nec_bit_0_space :=
  sendBytes_duration_formula a b c d ha hb hc hd

/-- C4 witness: the duration formula at bytes (0x00, 0xFF, 0xA5, 0x5A). -/
theorem sendBytes_duration_witness :
    (SendNECRawBytes 0x00 0xFF 0xA5 0x5A).2 =
      nec_lead_mark + nec_lead_space + 32 * nec_bit_mark + nec_trail_mark
        + (bitsOn 0x00 + bitsOn 0xFF + bitsOn 0xA5 + bitsOn 0x5A) * nec_bit_1_space
        + (32 - (bitsOn 0x00 + bitsOn 0xFF + bitsOn 0xA5 + bitsOn 0x5A))
            * nec_bit_0_space :=
  sendBytes_duration 0x00 0xFF 0xA5 0x5A (by norm_num) (by norm_num) (by norm_num)
    (by norm_num)

/-- C9: every full transmission fits inside one repeat period.  For every
4-byte input the returned duration is at most
`LEAD_MARK + LEAD_SPACE + 32*(BIT_MARK + BIT_1_SPACE) + TRAIL_MARK`,
which equals 153 NEC units, strictly below `REPEAT_PERIOD` (192 units);
hence the initial auto-repeat wait `REPEAT_PERIOD - duration` computed by
`SendNEC` is strictly positive. -/
theorem sendBytes_within_repeat_period (a b c d : Nat) (ha : a < 256)
    (hb : b < 256) (hc : c < 256) (hd : d < 256) :
    (SendNECRawBytes a b c d).2 ≤
        nec_lead_mark + nec_lead_space + 32 * (nec_bit_mark + nec_bit_1_space)
          + nec_trail_mark ∧
    nec_lead_mark + nec_lead_space + 32 * (nec_bit_mark + nec_bit_1_space)
        + nec_trail_mark = 153 * nec_unit ∧
    153 * nec_unit < nec_repeat_period ∧
    0 < nec_repeat_period - (SendNECRawBytes a b c d).2 := by
  have hf := sendBytes_duration_formula a b c d ha hb hc hd
  have l1 := bitsOn_le a
  have l2 := bitsOn_le b
  have l3 := bitsOn_le c
  have l4 := bitsOn_le d
  rw [hf]
  unfold nec_lead_mark nec_lead_space nec_bit_mark nec_trail_mark
    nec_bit_1_space nec_bit_0_space nec_repeat_period nec_unit
  omega

/-- C9 witness: the bound at the all-ones input (the longest frame). -/
theorem sendBytes_within_repeat_period_witness :
    (SendNECRawBytes 0xFF 0xFF 0xFF 0xFF).2 ≤
        nec_lead_mark + nec_lead_space + 32 * (nec_bit_mark + nec_bit_1_space)
          + nec_trail_mark ∧
    nec_lead_mark + nec_lead_space + 32 * (nec_bit_mark + nec_bit_1_space)
        + nec_trail_mark = 153 * nec_unit ∧
    153 * nec_unit < nec_repeat_period ∧
    0 < nec_repeat_period - (SendNECRawBytes 0xFF 0xFF 0xFF 0xFF).2 :=
  sendBytes_within_repeat_period 0xFF 0xFF 0xFF 0xFF (by norm_num) (by norm_num)
    (by norm_num) (by norm_num)

theorem sendBytes_snd_pos (a b c d : Nat) : 0 < (SendNECRawBytes a b c d).2 := by
  rw [sendBytes_snd_unfold]
  simp only [nec_lead_mark, nec_lead_space, nec_bit_mark, nec_trail_mark, nec_unit]
  omega

/-- C6: `SendNECRawCode` failure behaviour.  For every 32-bit raw code
that fails validation it returns duration 0 and performs no mark/space
emissions; for every valid raw code it returns a nonzero duration; so a
zero returned duration occurs exactly when the code is invalid. -/
theorem sendRawCode_zero_iff (data : Nat) (_hdata : data < 4294967296) :
    (¬ (SplitRawNECData data).valid = true → SendNECRawCode data = ([], 0)) ∧
    ((SplitRawNECData data).valid = true → (SendNECRawCode data).2 ≠ 0) ∧
    ((SendNECRawCode data).2 = 0 ↔ (SplitRawNECData data).valid = false) := by
  by_cases hv : (SplitRawNECData data).valid = true
  · have hrun : SendNECRawCode data =
        SendNECRawBytes (SplitNECAddress (SplitRawNECData data).address).1
          (SplitNECAddress (SplitRawNECData data).address).2
          (SplitRawNECData data).command (bnot (SplitRawNECData data).command) := by
      simp [SendNECRawCode, hv]
    have hpos := sendBytes_snd_pos
      (SplitNECAddress (SplitRawNECData data).address).1
      (SplitNECAddress (SplitRawNECData data).address).2
      (SplitRawNECData data).command (bnot (SplitRawNECData data).command)
    refine ⟨fun hh => absurd hv hh, fun _ => ?_, ?_⟩
    · rw [hrun]
      omega
    · rw [hrun]
      constructor
      · intro h0
        exact absurd h0 (by omega)
      · intro hfalse
        rw [hfalse] at hv
        exact absurd hv (by simp)
  · have hrun : SendNECRawCode data = ([], 0) := by
      simp [SendNECRawCode, hv]
    refine ⟨fun _ => hrun, fun hvv => absurd hvv hv, ?_⟩
    rw [hrun]
    simp
    exact Bool.not_eq_true _ ▸ (by simpa using hv)

/-- C6 witness: the raw code 0x00000001 has command byte 0x00 and
inverted-command byte 0x00, which fails validation. -/
theorem sendRawCode_zero_iff_witness :
    (¬ (SplitRawNECData 0x00000001).valid = true →
        SendNECRawCode 0x00000001 = ([], 0)) ∧
    ((SplitRawNECData 0x00000001).valid = true →
        (SendNECRawCode 0x00000001).2 ≠ 0) ∧
    ((SendNECRawCode 0x00000001).2 = 0 ↔
        (SplitRawNECData 0x00000001).valid = false) :=
  sendRawCode_zero_iff 0x00000001 (by norm_num)

/-- C8: duty-cycle defaulting.  `NewSender` stores the configured
modulation duty cycle unchanged when it lies inside [1, 100] and stores
the default 33 when it lies outside (including zero and negatives); it
is a total function, so no configuration is rejected. -/
theorem newSender_dutyCycle (config : SenderConfig) :
    (1 ≤ config.ModulationDutyCycle ∧ config.ModulationDutyCycle ≤ 100 →
      (NewSender config).pwmDC = config.ModulationDutyCycle) ∧
    (config.ModulationDutyCycle < 1 ∨ 100 < config.ModulationDutyCycle →
      (NewSender config).pwmDC = 33) := by
  constructor
  · intro h
    simp only [NewSender]
    rw [if_neg (by omega)]
  · intro h
    simp only [NewSender]
    rw [if_pos h]

/-- C8 witness: a configured duty cycle of 50 is stored unchanged, and a
negative duty cycle falls back to 33. -/
theorem newSender_dutyCycle_witness :
    (NewSender ⟨0, 50⟩).pwmDC = 50 ∧ (NewSender ⟨0, -7⟩).pwmDC = 33 :=
  ⟨(newSender_dutyCycle ⟨0, 50⟩).1 ⟨by norm_num, by norm_num⟩,
   (newSender_dutyCycle ⟨0, -7⟩).2 (Or.inl (by norm_num))⟩

/-! ## Cancellation protocol safety -/

theorem rptInit_inv : RptInv rptInit := by
  simp [RptInv, rptInit]

theorem rptStep_inv {s t : RptState} (hs : RptInv s) (h : RptStep s t) : RptInv t := by
  obtain ⟨ch, bg, fg, n⟩ := s
  simp only [RptStep, rptNext, fgNext, bgNext] at h
  cases ch <;> cases bg <;> cases fg <;>
    simp_all [RptInv] <;>
    (try rcases h with rfl | rfl) <;>
    simp_all [RptInv]

theorem rptStep_done_frames {s t : RptState} (hs : RptInv s)
    (hdone : s.fg = FgPc.done) (h : RptStep s t) :
    t.frames = s.frames ∧ t.fg = FgPc.done ∧ RptInv t := by
  obtain ⟨ch, bg, fg, n⟩ := s
  simp only at hdone
  subst hdone
  simp only [RptStep, rptNext, fgNext, bgNext] at h
  cases ch <;> cases bg <;>
    simp_all [RptInv]

theorem reachable_inv {s : RptState} (h : RptReachable s) : RptInv s := by
  induction h with
  | refl => exact rptInit_inv
  | tail _ hbc ih => exact rptStep_inv ih hbc

/-- C3: synchronous cancellation of the repeat session.  In the
interleaving model of `waitForAutoRepeatCancel` (entered from
`StopNECRepeats` or from the implicit cancel at the start of
`SendNECRawBytes`) running against the background repeat goroutine: in
every reachable state in which the cancelling call has returned, the
background goroutine has already observed the cancellation (it has
cleaned up `chRpt` and is at its final loop check or has exited), and no
continuation of the execution — under any interleaving — ever emits
another repeat frame. -/
theorem stopRepeats_sync {s t : RptState} (hs : RptReachable s)
    (hdone : s.fg = FgPc.done)
    (hst : Relation.ReflTransGen RptStep s t) :
    t.frames = s.frames ∧ (s.bg = BgPc.loopHead ∨ s.bg = BgPc.exited) := by
  have hinv := reachable_inv hs
  have hbg := hinv.2 (hinv.1 hdone)
  have hmain : t.frames = s.frames ∧ t.fg = FgPc.done ∧ RptInv t := by
    induction hst with
    | refl => exact ⟨rfl, hdone, hinv⟩
    | tail _ hbc ih =>
        obtain ⟨hf, hd, hi⟩ := ih
        obtain ⟨hf2, hd2, hi2⟩ := rptStep_done_frames hi hd hbc
        exact ⟨by rw [hf2, hf], hd2, hi2⟩
  exact ⟨hmain.1, hbg⟩

/-- C3 witness: the state where the foreground caller has returned after
a complete cancellation exchange is reachable, and from it no further
frame is emitted. -/
theorem stopRepeats_sync_witness :
    (⟨ChanSt.nilref, BgPc.exited, FgPc.done, 0⟩ : RptState).frames =
        (⟨ChanSt.nilref, BgPc.exited, FgPc.done, 0⟩ : RptState).frames ∧
    ((⟨ChanSt.nilref, BgPc.exited, FgPc.done, 0⟩ : RptState).bg = BgPc.loopHead ∨
     (⟨ChanSt.nilref, BgPc.exited, FgPc.done, 0⟩ : RptState).bg = BgPc.exited) := by
  have h1 : RptStep rptInit ⟨ChanSt.opened, BgPc.start, FgPc.sel, 0⟩ := by
    unfold RptStep
    decide
  have h2 : RptStep ⟨ChanSt.opened, BgPc.start, FgPc.sel, 0⟩
      ⟨ChanSt.closed, BgPc.start, FgPc.loopHead, 0⟩ := by
    unfold RptStep
    decide
  have h3 : RptStep ⟨ChanSt.closed, BgPc.start, FgPc.loopHead, 0⟩
      ⟨ChanSt.closed, BgPc.loopHead, FgPc.loopHead, 0⟩ := by
    unfold RptStep
    decide
  have h4 : RptStep ⟨ChanSt.closed, BgPc.loopHead, FgPc.loopHead, 0⟩
      ⟨ChanSt.closed, BgPc.sel, FgPc.loopHead, 0⟩ := by
    unfold RptStep
    decide
  have h5 : RptStep ⟨ChanSt.closed, BgPc.sel, FgPc.loopHead, 0⟩
      ⟨ChanSt.nilref, BgPc.loopHead, FgPc.loopHead, 0⟩ := by
    unfold RptStep
    decide
  have h6 : RptStep ⟨ChanSt.nilref, BgPc.loopHead, FgPc.loopHead, 0⟩
      ⟨ChanSt.nilref, BgPc.exited, FgPc.loopHead, 0⟩ := by
    unfold RptStep
    decide
  have h7 : RptStep ⟨ChanSt.nilref, BgPc.exited, FgPc.loopHead, 0⟩
      ⟨ChanSt.nilref, BgPc.exited, FgPc.done, 0⟩ := by
    unfold RptStep
    decide
  have hreach : RptReachable ⟨ChanSt.nilref, BgPc.exited, FgPc.done, 0⟩ :=
    Relation.ReflTransGen.head h1 (Relation.ReflTransGen.head h2
      (Relation.ReflTransGen.head h3 (Relation.ReflTransGen.head h4
        (Relation.ReflTransGen.head h5 (Relation.ReflTransGen.head h6
          (Relation.ReflTransGen.head h7 Relation.ReflTransGen.refl))))))
  exact stopRepeats_sync hreach rfl Relation.ReflTransGen.refl

end IRRemote
